import Mathlib

/-!
Shallow embedding of the borrow_as crate (src/src/lib.rs).

The crate provides:
* LifeRef (the LifetimeBoundContainer): a wrapper around an inner value
  together with a phantom lifetime tag. We reify the phantom lifetime as a
  natural number, read as an end time: a larger number means the span ends
  later, and span b outlives span a exactly when a ends no later than b.
* Ref: a type-erased immutable reference, a raw const pointer. We model a
  pointer as an address into a store (a function from addresses to values).
* Mut: a type-erased mutable reference through a Cell. Cell.from_mut is
  repr-transparent, so the cell lives at the same address as the value; a
  Mut is the address of that cell, and Cell get/set read and write the
  store at that address.
* Tuple composition via the Append trait of tuple_utils, which extends a
  tuple by one trailing element and is only defined up to result arity 16.
  We model the heterogeneous handle tuples built by the chain API as finite
  ordered lists of elements (a read-only handle, a cell-backed handle, or a
  nested bundle merged in by add_life), and Append as an Option-valued
  append that fails exactly where the trait instance does not exist, which
  in Rust is a build-time failure.
-/

namespace BorrowAs

/-- A validity span (the phantom lifetime of LifeRef), reified as an end
time: a larger value ends later. -/
abbrev Life := Nat

/-- Span b outlives span a (written b : a in the source) when a ends no
later than b. -/
abbrev Outlives (b a : Life) : Prop := a ≤ b

/-- Memory: one value of type V at every address. -/
abbrev Store (V : Type) := Nat → V

/-- A borrowed reference of the source language: the address it points to
and the validity span of the borrow. -/
structure Borrow where
  addr : Nat
  life : Life

/-- Ref of lib.rs: an immutable reference, a raw const pointer, modelled as
the address it stores. -/
structure Ref where
  addr : Nat

/-- Mut of lib.rs: a mutable reference via Cell, a raw const pointer to the
cell. Cell.from_mut is repr-transparent, so the address is the address of
the referred value itself. -/
structure Mut where
  addr : Nat

/-- Deref for Ref: read the referent out of the store. -/
def Ref.deref {V : Type} (σ : Store V) (r : Ref) : V :=
  σ r.addr

/-- PartialEq for Ref: self.deref().eq(other), delegating to the referent
equality eqU. -/
def Ref.eq {V W : Type} (eqU : V → W → Bool) (σ : Store V) (r : Ref) (other : W) : Bool :=
  eqU (r.deref σ) other

/-- Hash for Ref: self.deref().hash(state), delegating to the referent hash
function. -/
def Ref.hash {V : Type} (hashT : V → Nat) (σ : Store V) (r : Ref) : Nat :=
  hashT (r.deref σ)

/-- Display for Ref: in the alternate mode it renders the debug tuple
Ref(..) of the referent, otherwise it writes the text Ref followed by the
referent's Debug output. The referent's Debug rendering is abstracted as
the function dbg. -/
def Ref.display {V : Type} (alt : Bool) (dbg : V → String) (σ : Store V) (r : Ref) : String :=
  let t := r.deref σ
  if alt then
    "Ref(\n    " ++ dbg t ++ ",\n)"
  else
    "Ref " ++ dbg t

/-- The private unsafe fn get of Mut: reconstitute a shared view of the
cell contents, i.e. read the store at the cell address. -/
def Mut.read {V : Type} (σ : Store V) (m : Mut) : V :=
  σ m.addr

/-- Cell::get reached through Deref for Mut: return a copy of the current
value. -/
def Mut.get {V : Type} (σ : Store V) (m : Mut) : V :=
  σ m.addr

/-- Cell::set reached through Deref for Mut: overwrite the value at the
cell address. -/
def Mut.set {V : Type} (σ : Store V) (m : Mut) (v : V) : Store V :=
  fun a => if a = m.addr then v else σ a

/-- PartialEq for Mut: self.get().eq(other), where get reads the current
cell contents. -/
def Mut.eq {V W : Type} (eqU : V → W → Bool) (σ : Store V) (m : Mut) (other : W) : Bool :=
  eqU (m.read σ) other

/-- Ord for Mut (and PartialOrd through it): compare the current cell
contents with the referent comparison cmpT. -/
def Mut.cmp {V W : Type} (cmpT : V → W → Ordering) (σ : Store V) (m : Mut) (other : W) : Ordering :=
  cmpT (m.read σ) other

/-- Hash for Mut: self.get().hash(state) on the current cell contents. -/
def Mut.hash {V : Type} (hashT : V → Nat) (σ : Store V) (m : Mut) : Nat :=
  hashT (m.read σ)

/-- Display for Mut: like Display for Ref, but with the Mut label, over the
current cell contents. -/
def Mut.display {V : Type} (alt : Bool) (dbg : V → String) (σ : Store V) (m : Mut) : String :=
  let t := m.read σ
  if alt then
    "Mut(\n    " ++ dbg t ++ ",\n)"
  else
    "Mut " ++ dbg t

/-- One element of a handle tuple built by the chain API: a read-only
handle added by wrap_ref or add_ref, a cell-backed handle added by wrap_mut
or add_mut, or a whole inner tuple merged in as one element by wrap_life or
add_life. -/
inductive Elem where
  | ref (r : Ref)
  | cell (m : Mut)
  | nested (b : List Elem)

/-- The Append trait of tuple_utils: extend the tuple by one trailing
element. Instances exist only up to result arity 16, so appending to a
tuple that already has 16 elements does not type check in Rust; the model
returns none exactly there. -/
def appendElem (t : List Elem) (e : Elem) : Option (List Elem) :=
  if t.length < 16 then some (t ++ [e]) else none

/-- LifeRef of lib.rs: the inner value together with the phantom validity
span, reified as data. -/
structure LifeRef (T : Type) where
  inner : T
  life : Life

/-- LifeRef::wrap_ref: start a bundle from one immutable borrow; the inner
value is the 1-tuple holding Ref(r) and the container is tagged with the
span of the borrow. -/
def LifeRef.wrap_ref (r : Borrow) : LifeRef (List Elem) :=
  ⟨[Elem.ref ⟨r.addr⟩], r.life⟩

/-- LifeRef::wrap_mut: start a bundle from one exclusive borrow, converted
by Cell::from_mut into a cell-backed handle at the same address. -/
def LifeRef.wrap_mut (r : Borrow) : LifeRef (List Elem) :=
  ⟨[Elem.cell ⟨r.addr⟩], r.life⟩

/-- LifeRef::wrap_life: nest the current inner tuple as the single element
of a 1-tuple, keeping the validity tag. -/
def LifeRef.wrap_life (c : LifeRef (List Elem)) : LifeRef (List Elem) :=
  ⟨[Elem.nested c.inner], c.life⟩

/-- LifeRef::add_ref: append one read-only handle to the inner tuple. The
result is tagged with lifetime a, which both the container and the borrow
must outlive; its maximal choice is the minimum of the two spans. -/
def LifeRef.add_ref (c : LifeRef (List Elem)) (r : Borrow) : Option (LifeRef (List Elem)) :=
  (appendElem c.inner (Elem.ref ⟨r.addr⟩)).map fun v => ⟨v, min c.life r.life⟩

/-- LifeRef::add_mut: append one cell-backed handle to the inner tuple,
with the same validity rule as add_ref. -/
def LifeRef.add_mut (c : LifeRef (List Elem)) (r : Borrow) : Option (LifeRef (List Elem)) :=
  (appendElem c.inner (Elem.cell ⟨r.addr⟩)).map fun v => ⟨v, min c.life r.life⟩

/-- LifeRef::add_life: append the extracted inner value of another LifeRef
as one trailing element. The signature requires the span of other to
outlive the span of self, and tags the result with the span of self. -/
def LifeRef.add_life (c : LifeRef (List Elem)) (other : LifeRef (List Elem)) :
    Option (LifeRef (List Elem)) :=
  (appendElem c.inner (Elem.nested other.inner)).map fun v => ⟨v, c.life⟩

/-- LifeRef::map_life: apply a pure transform to the inner value, keeping
the validity tag. -/
def LifeRef.map_life {T U : Type} (c : LifeRef T) (f : T → U) : LifeRef U :=
  ⟨f c.inner, c.life⟩

/-- From of T for LifeRef: wrap an owned value; the phantom lifetime is
unconstrained, so the model takes it as an argument. -/
def LifeRef.fromVal {T : Type} (t : T) (l : Life) : LifeRef T :=
  ⟨t, l⟩

/-- Deref for LifeRef: expose the inner value. -/
def LifeRef.deref {T : Type} (c : LifeRef T) : T :=
  c.inner

/-- One chain call after the initial wrap: add_ref or add_mut with the
given borrow. -/
inductive Action where
  | addRef (r : Borrow)
  | addMut (r : Borrow)

/-- The element an action appends to the inner tuple. -/
def Action.elem : Action → Elem
  | .addRef r => Elem.ref ⟨r.addr⟩
  | .addMut r => Elem.cell ⟨r.addr⟩

/-- Run one chain call on a container. -/
def Action.step (c : LifeRef (List Elem)) : Action → Option (LifeRef (List Elem))
  | .addRef r => c.add_ref r
  | .addMut r => c.add_mut r

/-- Run a sequence of chain calls left to right, failing as soon as one
call fails to type check (arity overflow). -/
def applyChain (c : LifeRef (List Elem)) : List Action → Option (LifeRef (List Elem))
  | [] => some c
  | a :: rest =>
    match Action.step c a with
    | some c2 => applyChain c2 rest
    | none => none

theorem appendElem_eq_some {t : List Elem} {e : Elem} {v : List Elem}
    (h : appendElem t e = some v) : v = t ++ [e] := by
  unfold appendElem at h
  split at h
  · exact (Option.some.injEq _ _ ▸ h).symm
  · exact absurd h (by simp)

theorem appendElem_isSome_iff (t : List Elem) (e : Elem) :
    (appendElem t e).isSome ↔ t.length < 16 := by
  unfold appendElem
  split <;> simp_all

theorem step_inner {c c2 : LifeRef (List Elem)} {a : Action}
    (h : Action.step c a = some c2) : c2.inner = c.inner ++ [a.elem] := by
  cases a with
  | addRef r =>
    simp only [Action.step, LifeRef.add_ref, Option.map_eq_some'] at h
    obtain ⟨v, hv, hc⟩ := h
    rw [← hc]
    exact appendElem_eq_some hv
  | addMut r =>
    simp only [Action.step, LifeRef.add_mut, Option.map_eq_some'] at h
    obtain ⟨v, hv, hc⟩ := h
    rw [← hc]
    exact appendElem_eq_some hv

theorem step_isSome_iff (c : LifeRef (List Elem)) (a : Action) :
    (Action.step c a).isSome ↔ c.inner.length < 16 := by
  cases a with
  | addRef r =>
    rw [← appendElem_isSome_iff c.inner (Elem.ref ⟨r.addr⟩)]
    simp [Action.step, LifeRef.add_ref]
  | addMut r =>
    rw [← appendElem_isSome_iff c.inner (Elem.cell ⟨r.addr⟩)]
    simp [Action.step, LifeRef.add_mut]

theorem applyChain_inner (acts : List Action) :
    ∀ c c2 : LifeRef (List Elem), applyChain c acts = some c2 →
      c2.inner = c.inner ++ acts.map Action.elem := by
  induction acts with
  | nil =>
    intro c c2 h
    simp only [applyChain] at h
    cases h
    simp
  | cons a rest ih =>
    intro c c2 h
    simp only [applyChain] at h
    cases hs : Action.step c a with
    | none => rw [hs] at h; cases h
    | some c1 =>
      rw [hs] at h
      have h1 : c1.inner = c.inner ++ [a.elem] := step_inner hs
      have h2 := ih c1 c2 h
      rw [h2, h1]
      simp

theorem applyChain_isSome_of_le (acts : List Action) :
    ∀ c : LifeRef (List Elem), c.inner.length + acts.length ≤ 16 →
      (applyChain c acts).isSome := by
  induction acts with
  | nil =>
    intro c _
    simp [applyChain]
  | cons a rest ih =>
    intro c h
    simp only [List.length_cons] at h
    have hlt : c.inner.length < 16 := by omega
    obtain ⟨c1, hc1⟩ := Option.isSome_iff_exists.mp ((step_isSome_iff c a).mpr hlt)
    have hlen : c1.inner.length = c.inner.length + 1 := by
      rw [step_inner hc1]
      simp
    simp only [applyChain, hc1]
    exact ih c1 (by omega)

theorem applyChain_eq_none (acts : List Action) :
    ∀ c : LifeRef (List Elem), acts ≠ [] → 16 < c.inner.length + acts.length →
      applyChain c acts = none := by
  induction acts with
  | nil =>
    intro c h _
    exact absurd rfl h
  | cons a rest ih =>
    intro c _ h
    simp only [List.length_cons] at h
    by_cases hlt : c.inner.length < 16
    · obtain ⟨c1, hc1⟩ := Option.isSome_iff_exists.mp ((step_isSome_iff c a).mpr hlt)
      have hlen : c1.inner.length = c.inner.length + 1 := by
        rw [step_inner hc1]
        simp
      cases rest with
      | nil =>
        exfalso
        simp only [List.length_nil] at h
        omega
      | cons x xs =>
        simp only [applyChain, hc1]
        exact ih c1 (by simp) (by simp only [List.length_cons] at h ⊢; omega)
    · have hnone : Action.step c a = none := by
        cases hs : Action.step c a with
        | none => rfl
        | some c1 => exact absurd ((step_isSome_iff c a).mp (by simp [hs])) hlt
      simp only [applyChain, hnone]

/-- C1: for containers a and b with the span of b outliving the span of a
(the precondition of add_life), the merged container is tagged with the
minimum of the two spans, so it can never be retained longer than whichever
of the two expires first. -/
theorem add_life_never_widens (a b c2 : LifeRef (List Elem))
    (hout : Outlives b.life a.life) (h : a.add_life b = some c2) :
    c2.life = min a.life b.life ∧ c2.life ≤ a.life ∧ c2.life ≤ b.life := by
  have hlife : c2.life = a.life := by
    simp only [LifeRef.add_life, Option.map_eq_some'] at h
    obtain ⟨v, _, hc⟩ := h
    rw [← hc]
  rw [hlife, min_eq_left hout]
  exact ⟨rfl, le_refl _, hout⟩

theorem add_life_never_widens_witness :
    (⟨[Elem.ref ⟨0⟩, Elem.nested [Elem.cell ⟨1⟩]], 3⟩ : LifeRef (List Elem)).life = min 3 9 ∧
    (⟨[Elem.ref ⟨0⟩, Elem.nested [Elem.cell ⟨1⟩]], 3⟩ : LifeRef (List Elem)).life ≤ 3 ∧
    (⟨[Elem.ref ⟨0⟩, Elem.nested [Elem.cell ⟨1⟩]], 3⟩ : LifeRef (List Elem)).life ≤ 9 :=
  add_life_never_widens ⟨[Elem.ref ⟨0⟩], 3⟩ ⟨[Elem.cell ⟨1⟩], 9⟩ _ (by decide) rfl

/-- C2: the container built by wrap_ref holds exactly the one read-only
handle over the borrowed address, and that handle compares equal to the
referent value under the referent equality whenever that equality is
reflexive at the value. -/
theorem wrap_ref_deref_eq {V : Type} (eqT : V → V → Bool) (σ : Store V) (rb : Borrow) (x : V)
    (hmem : σ rb.addr = x) (hrefl : eqT x x = true) :
    (LifeRef.wrap_ref rb).deref = [Elem.ref ⟨rb.addr⟩] ∧
    Ref.eq eqT σ ⟨rb.addr⟩ x = true := by
  refine ⟨rfl, ?_⟩
  simp [Ref.eq, Ref.deref, hmem, hrefl]

theorem wrap_ref_deref_eq_witness :
    (LifeRef.wrap_ref ⟨2, 5⟩).deref = [Elem.ref ⟨2⟩] ∧
    Ref.eq (fun a b : Nat => a == b) (fun _ => 4) ⟨2⟩ 4 = true :=
  wrap_ref_deref_eq (fun a b : Nat => a == b) (fun _ => 4) ⟨2, 5⟩ 4 rfl (by decide)

/-- C3: writing a value through a mutable handle with Cell::set and then
reading it back with Cell::get returns that value, for every store, handle
and value. -/
theorem mut_set_get_roundtrip {V : Type} (σ : Store V) (m : Mut) (v : V) :
    Mut.get (Mut.set σ m v) m = v := by
  simp [Mut.get, Mut.set]

/-- C4: starting from wrap_ref or wrap_mut, any successful sequence of
add_ref and add_mut calls yields a bundle whose elements are exactly the
initial handle followed by the appended handles in call order, with nothing
reordered or removed. -/
theorem bundle_order_eq_call_order (rb : Borrow) (acts : List Action) (c2 : LifeRef (List Elem)) :
    (applyChain (LifeRef.wrap_ref rb) acts = some c2 →
      c2.inner = Elem.ref ⟨rb.addr⟩ :: acts.map Action.elem) ∧
    (applyChain (LifeRef.wrap_mut rb) acts = some c2 →
      c2.inner = Elem.cell ⟨rb.addr⟩ :: acts.map Action.elem) := by
  constructor
  · intro h
    simpa [LifeRef.wrap_ref] using applyChain_inner acts _ _ h
  · intro h
    simpa [LifeRef.wrap_mut] using applyChain_inner acts _ _ h

theorem bundle_order_eq_call_order_witness :
    (⟨[Elem.ref ⟨0⟩, Elem.cell ⟨1⟩, Elem.ref ⟨2⟩], 5⟩ : LifeRef (List Elem)).inner =
      Elem.ref ⟨0⟩ :: [Action.addMut ⟨1, 7⟩, Action.addRef ⟨2, 6⟩].map Action.elem :=
  (bundle_order_eq_call_order ⟨0, 5⟩ [Action.addMut ⟨1, 7⟩, Action.addRef ⟨2, 6⟩]
    ⟨[Elem.ref ⟨0⟩, Elem.cell ⟨1⟩, Elem.ref ⟨2⟩], 5⟩).1 rfl

/-- C5: map_life with the identity returns the container unchanged, and for
every transform f the result wraps f of the inner value while the validity
tag is kept as it was. -/
theorem map_life_id_preserves {T U : Type} (c : LifeRef T) (f : T → U) :
    c.map_life id = c ∧ (c.map_life f).inner = f c.inner ∧ (c.map_life f).life = c.life :=
  ⟨rfl, rfl, rfl⟩

/-- C6 counterexample: formatting a handle for display does not reproduce
the output of formatting the referent itself. With a referent whose own
rendering is the string 5, the Ref handle displays as Ref 5 and the Mut
handle as Mut 5. -/
theorem display_not_referent_output :
    Ref.display false (fun _ : Nat => "5") (fun _ => (5 : Nat)) ⟨0⟩ ≠ "5" ∧
    Mut.display false (fun _ : Nat => "5") (fun _ => (5 : Nat)) ⟨0⟩ ≠ "5" := by
  decide

/-- C6 amended: display of a handle is built from the referent's Debug
rendering alone, with the handle kind in front: in the plain mode the text
Ref or Mut followed by a space and the referent's Debug output, and in the
alternate mode the corresponding debug tuple rendering. -/
theorem display_delegates_debug_prefixed {V : Type} (dbg : V → String) (σ : Store V)
    (r : Ref) (m : Mut) :
    Ref.display false dbg σ r = "Ref " ++ dbg (r.deref σ) ∧
    Mut.display false dbg σ m = "Mut " ++ dbg (m.read σ) ∧
    Ref.display true dbg σ r = "Ref(\n    " ++ dbg (r.deref σ) ++ ",\n)" ∧
    Mut.display true dbg σ m = "Mut(\n    " ++ dbg (m.read σ) ++ ",\n)" :=
  ⟨rfl, rfl, rfl, rfl⟩

/-- C7: nesting a container with wrap_life and merging a second container b
with add_life always succeeds and yields the two original bundles as the
two elements of the result, in order and each with its internal element
order intact; the result keeps the span of the first container, which under
the outlives precondition is the minimum of the two spans. -/
theorem wrap_life_add_life_pair (a b : LifeRef (List Elem))
    (hout : Outlives b.life a.life) :
    a.wrap_life.add_life b = some ⟨[Elem.nested a.inner, Elem.nested b.inner], a.life⟩ ∧
    a.life = min a.life b.life := by
  exact ⟨rfl, (min_eq_left hout).symm⟩

theorem wrap_life_add_life_pair_witness :
    (⟨[Elem.ref ⟨0⟩], 3⟩ : LifeRef (List Elem)).wrap_life.add_life ⟨[Elem.cell ⟨1⟩], 9⟩ =
      some ⟨[Elem.nested [Elem.ref ⟨0⟩], Elem.nested [Elem.cell ⟨1⟩]], 3⟩ ∧
    (3 : Nat) = min 3 9 :=
  wrap_life_add_life_pair ⟨[Elem.ref ⟨0⟩], 3⟩ ⟨[Elem.cell ⟨1⟩], 9⟩ (by decide)

/-- C8: chains built from wrap_ref or wrap_mut succeed exactly when the
final arity stays within 16, so arity overflow is the only way to fail and
it is determined before anything runs; add_life likewise succeeds exactly
within the arity bound, and a merge prepared by wrap_life always succeeds. -/
theorem chain_ops_total_iff_arity (rb : Borrow) (acts : List Action)
    (a b : LifeRef (List Elem)) :
    ((applyChain (LifeRef.wrap_ref rb) acts).isSome ↔ acts.length ≤ 15) ∧
    ((applyChain (LifeRef.wrap_mut rb) acts).isSome ↔ acts.length ≤ 15) ∧
    ((a.add_life b).isSome ↔ a.inner.length < 16) ∧
    (a.wrap_life.add_life b).isSome := by
  have key : ∀ c : LifeRef (List Elem), c.inner.length = 1 →
      ((applyChain c acts).isSome ↔ acts.length ≤ 15) := by
    intro c hc
    constructor
    · intro hs
      by_contra hgt
      push_neg at hgt
      have hne : acts ≠ [] := by
        cases acts with
        | nil => exact absurd hgt (by simp)
        | cons x xs => simp
      rw [applyChain_eq_none acts c hne (by omega)] at hs
      exact absurd hs (by simp)
    · intro hle
      exact applyChain_isSome_of_le acts c (by omega)
  refine ⟨key _ rfl, key _ rfl, ?_, ?_⟩
  · rw [← appendElem_isSome_iff a.inner (Elem.nested b.inner)]
    simp [LifeRef.add_life]
  · simp [LifeRef.wrap_life, LifeRef.add_life, appendElem]

/-- C9: wrapping an owned value through the From conversion, under any
choice of the unconstrained validity tag, dereferences back to the very
same value, and the container carries the chosen tag. -/
theorem fromVal_deref_id {T : Type} (t : T) (l : Life) :
    (LifeRef.fromVal t l).deref = t ∧ (LifeRef.fromVal t l).life = l :=
  ⟨rfl, rfl⟩

/-- C10: equality, ordering and hashing on a mutable handle read the cell
contents at call time: right after set v the handle compares equal to v
when the referent equality is reflexive at v, comparisons against any w use
v, and the hash is the hash of v. -/
theorem mut_observes_latest_write {V : Type} (eqT : V → V → Bool)
    (cmpT : V → V → Ordering) (hashT : V → Nat) (σ : Store V) (m : Mut) (v w : V)
    (hrefl : eqT v v = true) :
    Mut.eq eqT (Mut.set σ m v) m v = true ∧
    Mut.eq eqT (Mut.set σ m v) m w = eqT v w ∧
    Mut.cmp cmpT (Mut.set σ m v) m w = cmpT v w ∧
    Mut.hash hashT (Mut.set σ m v) m = hashT v := by
  simp [Mut.eq, Mut.cmp, Mut.hash, Mut.read, Mut.set, hrefl]

theorem mut_observes_latest_write_witness :
    Mut.eq (fun a b : Nat => a == b) (Mut.set (fun _ => 0) ⟨1⟩ 4) ⟨1⟩ 4 = true ∧
    Mut.eq (fun a b : Nat => a == b) (Mut.set (fun _ => 0) ⟨1⟩ 4) ⟨1⟩ 7 =
      ((4 : Nat) == 7) ∧
    Mut.cmp compare (Mut.set (fun _ => 0) ⟨1⟩ 4) ⟨1⟩ 7 = compare (4 : Nat) 7 ∧
    Mut.hash id (Mut.set (fun _ => 0) ⟨1⟩ 4) ⟨1⟩ = id (4 : Nat) :=
  mut_observes_latest_write (fun a b : Nat => a == b) compare id (fun _ => 0) ⟨1⟩ 4 7
    (by decide)

end BorrowAs
